import Mathlib

/-!
Verification of the Adsupper synchronization and optimization engine.

The definitions below are a shallow embedding of the relevant parts of
`scripts/syncAmazonDataVps.js` (both the plain variant and the
rolling-schedule daemon variant of the same script) and of the VPS keyword
optimizer (`optimizerVps.js`).  JavaScript numbers are modelled as
rationals; timestamps are rationals counting milliseconds since the epoch;
`null`/`undefined` fields are modelled with `Option`.
-/

namespace Adsupper

/-! ### Date ranges (`buildDateRange`) -/

/-- One day in milliseconds: `DAY_MS = 24 * 60 * 60 * 1000`. -/
def DAY_MS : ℚ := 86400000

/-- The UTC calendar day number of a millisecond timestamp.  Taking the
date part of `toISOString()` keeps the UTC day, i.e. the floor of the
timestamp divided by one day. -/
def dayOf (ms : ℚ) : ℤ := ⌊ms / DAY_MS⌋

/-- `buildDateRange(daysWindow)` from `scripts/syncAmazonDataVps.js`
(identical in both variants): `end = new Date(Date.now() - DAY_MS)`,
`start = new Date(end.getTime() - (daysWindow - 1) * DAY_MS)`.  The result
is the pair of day numbers `(startDate, endDate)`. -/
def buildDateRange (nowMs : ℚ) (daysWindow : ℤ) : ℤ × ℤ :=
  let endMs : ℚ := nowMs - DAY_MS
  let startMs : ℚ := endMs - ((daysWindow : ℚ) - 1) * DAY_MS
  (dayOf startMs, dayOf endMs)

theorem DAY_MS_ne_zero : DAY_MS ≠ 0 := by norm_num [DAY_MS]

theorem dayOf_sub_days (ms : ℚ) (k : ℤ) :
    dayOf (ms - (k : ℚ) * DAY_MS) = dayOf ms - k := by
  unfold dayOf
  have h : (ms - (k : ℚ) * DAY_MS) / DAY_MS = ms / DAY_MS - (k : ℚ) := by
    rw [sub_div, mul_div_assoc, div_self DAY_MS_ne_zero, mul_one]
  rw [h, Int.floor_sub_int]

/-! ### Rolling schedule (`main` of the daemon variant) -/

/-- Rolling-schedule columns of an `amazon_accounts` row
(migration `2025-12-11_add_rolling_schedule.sql`).  The `last_*_sync_at`
timestamps are `none` when the column is NULL; the `*_window_days`
columns configure the report window length passed to `syncAccount`. -/
structure AccountSchedule where
  last_3d_sync_at : Option ℚ
  last_7d_sync_at : Option ℚ
  last_30d_sync_at : Option ℚ
  daily_window_days : Option ℚ
  weekly_window_days : Option ℚ
  monthly_window_days : Option ℚ

/-- `account.last_Xd_sync_at ? new Date(...).getTime() : 0` — a missing
timestamp is replaced by `0`. -/
def lastSyncMs (t : Option ℚ) : ℚ := t.getD 0

/-- `dueDaily = !last3 || now - last3 >= 1 * DAY_MS`. -/
def dueDaily (now : ℚ) (acc : AccountSchedule) : Bool :=
  decide (lastSyncMs acc.last_3d_sync_at = 0 ∨
    now - lastSyncMs acc.last_3d_sync_at ≥ 1 * DAY_MS)

/-- `dueWeekly = !last7 || now - last7 >= 7 * DAY_MS`. -/
def dueWeekly (now : ℚ) (acc : AccountSchedule) : Bool :=
  decide (lastSyncMs acc.last_7d_sync_at = 0 ∨
    now - lastSyncMs acc.last_7d_sync_at ≥ 7 * DAY_MS)

/-- `dueMonthly = !last30 || now - last30 >= 30 * DAY_MS`. -/
def dueMonthly (now : ℚ) (acc : AccountSchedule) : Bool :=
  decide (lastSyncMs acc.last_30d_sync_at = 0 ∨
    now - lastSyncMs acc.last_30d_sync_at ≥ 30 * DAY_MS)

/-- C8 (counterexample): the claim says the report date range is
`[today - 1 - w, today - 1]`.  At `now = 10 * DAY_MS` (so `today = 10`) and
window `w = 7`, `buildDateRange` starts the range at day `3 = today - 7`,
not at day `2 = today - 1 - 7`, so the claim as stated is false. -/
theorem buildDateRange_start_counterexample :
    (buildDateRange (10 * DAY_MS) 7).1 = 3 ∧
      dayOf (10 * DAY_MS) - 1 - 7 = 2 ∧ (3 : ℤ) ≠ 2 := by
  refine ⟨?_, ?_, by decide⟩
  · show dayOf (10 * DAY_MS - DAY_MS - ((7 : ℚ) - 1) * DAY_MS) = 3
    norm_num [dayOf, DAY_MS]
  · norm_num [dayOf, DAY_MS]

/-- C8 (amended): for every window length `w`, the report date range built
by `buildDateRange` is `[today - w, today - 1]`: the end date is yesterday
and the range covers exactly the `w` fully finalized days ending yesterday. -/
theorem buildDateRange_window (nowMs : ℚ) (w : ℤ) :
    buildDateRange nowMs w = (dayOf nowMs - w, dayOf nowMs - 1) := by
  show (dayOf (nowMs - DAY_MS - ((w : ℚ) - 1) * DAY_MS), dayOf (nowMs - DAY_MS)) = _
  have hstart : nowMs - DAY_MS - ((w : ℚ) - 1) * DAY_MS = nowMs - (w : ℚ) * DAY_MS := by
    ring
  rw [hstart, dayOf_sub_days]
  have hend : nowMs - DAY_MS = nowMs - ((1 : ℤ) : ℚ) * DAY_MS := by push_cast; ring
  rw [hend, dayOf_sub_days]

/-- The all-NULL schedule row. -/
def emptySchedule : AccountSchedule := ⟨none, none, none, none, none, none⟩

/-- A schedule row whose only set timestamp is the weekly one. -/
def weeklySchedule (t : ℚ) : AccountSchedule := ⟨none, some t, none, none, none, none⟩

/-- C7: each rolling window is due exactly when its last-sync timestamp is
absent (or degenerate, parsed to epoch zero) or at least its period old —
one day for the daily window, seven days for the weekly window, thirty days
for the monthly window.  In particular a weekly stamp of `now - 8` days is
due and a weekly stamp of `now - 3` days is not. -/
theorem rolling_due_check (now t : ℚ) (ht : 0 < t) :
    (dueDaily now emptySchedule = true) ∧
    (dueWeekly now emptySchedule = true) ∧
    (dueMonthly now emptySchedule = true) ∧
    (∀ acc : AccountSchedule, acc.last_3d_sync_at = some t →
      (dueDaily now acc = true ↔ 1 * DAY_MS ≤ now - t)) ∧
    (∀ acc : AccountSchedule, acc.last_7d_sync_at = some t →
      (dueWeekly now acc = true ↔ 7 * DAY_MS ≤ now - t)) ∧
    (∀ acc : AccountSchedule, acc.last_30d_sync_at = some t →
      (dueMonthly now acc = true ↔ 30 * DAY_MS ≤ now - t)) := by
  have hne := ht.ne
  refine ⟨by simp [dueDaily, emptySchedule, lastSyncMs],
    by simp [dueWeekly, emptySchedule, lastSyncMs],
    by simp [dueMonthly, emptySchedule, lastSyncMs], ?_, ?_, ?_⟩ <;>
      intro acc h <;>
      simp [dueDaily, dueWeekly, dueMonthly, h, lastSyncMs, hne.symm]

/-- Witness for C7: with `now = 100` days, a weekly stamp eight days old is
due and a weekly stamp three days old is not. -/
theorem rolling_due_check_witness :
    dueWeekly (100 * DAY_MS) (weeklySchedule (100 * DAY_MS - 8 * DAY_MS)) = true ∧
    dueWeekly (100 * DAY_MS) (weeklySchedule (100 * DAY_MS - 3 * DAY_MS)) = false := by
  constructor
  · exact ((rolling_due_check (100 * DAY_MS) (100 * DAY_MS - 8 * DAY_MS)
      (by norm_num [DAY_MS])).2.2.2.2.1 _ rfl).mpr (by norm_num [DAY_MS])
  · have h := (rolling_due_check (100 * DAY_MS) (100 * DAY_MS - 3 * DAY_MS)
      (by norm_num [DAY_MS])).2.2.2.2.1 (weeklySchedule (100 * DAY_MS - 3 * DAY_MS)) rfl
    have hn : ¬(7 * DAY_MS ≤ 100 * DAY_MS - (100 * DAY_MS - 3 * DAY_MS)) := by
      norm_num [DAY_MS]
    cases hd : dueWeekly (100 * DAY_MS) (weeklySchedule (100 * DAY_MS - 3 * DAY_MS)) with
    | false => rfl
    | true => exact absurd (h.mp hd) hn

/-! ### Keyword optimizer (`optimizerVps.js`) -/

/-- `hoursBetween(a, b) = Math.abs(t1 - t2) / (1000 * 60 * 60)`. -/
def hoursBetween (a b : ℚ) : ℚ := |a - b| / 3600000

/-- `String.prototype.toLowerCase()` (ASCII lowercasing of the
identifiers at hand). -/
def jsToLower (s : String) : String := String.mk (s.data.map Char.toLower)

/-- One entry of `settings.conditions`. -/
structure Cond where
  metric : String
  comparison : Option String
  condition : Option String
  value : Option ℚ
  threshold : Option ℚ

/-- `settings.scope`; `type` is compared against the literals `"ALL"`,
`"CAMPAIGNS"` and `"KEYWORDS"`; absent or non-array id lists are `none`. -/
structure ScopeCfg where
  scopeType : Option String
  campaign_ids : Option (List String)
  keyword_ids : Option (List String)

/-- `settings.action` is either absent, the user-facing action string from
the UI, or a configuration object `{ type, value, min_bid, max_bid }`. -/
inductive ActionCfg
  | absent
  | ofString (s : String)
  | ofConf (ty : Option String) (value : Option ℚ) (min_bid : Option ℚ) (max_bid : Option ℚ)

/-- The `settings` JSON blob of an `optimization_rules` row (the fields the
optimizer reads). -/
structure RuleSettings where
  scope : Option ScopeCfg
  conditions : Option (List Cond)
  metric : Option String
  condition : Option String
  condition_op : Option String
  threshold : Option ℚ
  action : ActionCfg
  action_value : Option ℚ
  entity : Option String
  frequency_days : Option ℚ
  frequency_hours : Option ℚ

/-- `settings` with every field absent (`rule.settings || {}`). -/
def emptySettings : RuleSettings :=
  { scope := none, conditions := none, metric := none, condition := none,
    condition_op := none, threshold := none, action := ActionCfg.absent,
    action_value := none, entity := none, frequency_days := none,
    frequency_hours := none }

/-- An `optimization_rules` row (the fields the optimizer reads). -/
structure Rule where
  settings : Option RuleSettings
  last_run : Option ℚ

/-- `rule.settings || {}`. -/
def settingsOf (r : Rule) : RuleSettings := r.settings.getD emptySettings

/-- The cooldown length in days computed by `ruleDue`:
`settings.frequency_days != null ? Number(settings.frequency_days) || 0
 : (settings.frequency_hours != null ? (Number(...) || 0) / 24 : 1)`. -/
def freqDaysOf (s : RuleSettings) : ℚ :=
  match s.frequency_days with
  | some d => d
  | none =>
    match s.frequency_hours with
    | some h => h / 24
    | none => 1

/-- `ruleDue(rule)` from `optimizerVps.js`: due when the cooldown is
non-positive, when the rule never ran, or when at least
`freqDays * 24` hours passed since `last_run`. -/
def ruleDue (r : Rule) (now : ℚ) : Bool :=
  let freqDays := freqDaysOf (settingsOf r)
  if freqDays ≤ 0 then true
  else
    match r.last_run with
    | none => true
    | some lr => decide (hoursBetween lr now ≥ freqDays * 24)

/-- A row of `amazon_keywords` as selected by `processAccount`
(`id, campaign_id, keyword_id, text, match_type, bid, status, spend,
impressions, clicks, orders, acos`); numeric columns are `none` when NULL
(the code reads them as `Number(x ?? 0) || 0`). -/
structure KwRow where
  id : String
  campaign_id : Option String
  keyword_id : String
  bid : Option ℚ
  spend : Option ℚ
  impressions : Option ℚ
  clicks : Option ℚ
  orders : Option ℚ
  acos : Option ℚ

/-- `getMetricValue(row, metric)`: named metrics come from the stored
columns, `ctr`/`cpc` are derived with zero-denominator guards, and the
default branch reads `row[m]`, whose only other numeric column is `bid`. -/
def getMetricValue (row : KwRow) (metric : String) : ℚ :=
  let m := jsToLower metric
  let spend := row.spend.getD 0
  let impressions := row.impressions.getD 0
  let clicks := row.clicks.getD 0
  let orders := row.orders.getD 0
  let acos := row.acos.getD 0
  if m = "spend" then spend
  else if m = "impressions" then impressions
  else if m = "clicks" then clicks
  else if m = "orders" then orders
  else if m = "acos" then acos
  else if m = "ctr" then (if impressions > 0 then clicks / impressions else 0)
  else if m = "cpc" then (if clicks > 0 then spend / clicks else 0)
  else if m = "bid" then row.bid.getD 0
  else 0

/-- `compareMetric(value, op, target)` with `t = Number(target ?? 0)`. -/
def compareMetric (value : ℚ) (op : String) (target : Option ℚ) : Bool :=
  let t := target.getD 0
  if op = "greater_than" ∨ op = ">" then decide (value > t)
  else if op = "less_than" ∨ op = "<" then decide (value < t)
  else if op = "greater_or_equal" ∨ op = ">=" then decide (value ≥ t)
  else if op = "less_or_equal" ∨ op = "<=" then decide (value ≤ t)
  else if op = "equals" ∨ op = "==" ∨ op = "=" then
    decide (|value - t| < 1 / 1000000)
  else false

/-- `filterKeywordsByScope(keywords, scope)`; the caller passes
`settings.scope || {}`, so the `!scope` early return coincides with the
fall-through return of the unfiltered list. -/
def filterKeywordsByScope (kws : List KwRow) (scope : ScopeCfg) : List KwRow :=
  if scope.scopeType = some "ALL" then kws
  else if scope.scopeType = some "CAMPAIGNS" ∧ scope.campaign_ids.getD [] ≠ [] then
    kws.filter (fun k =>
      match k.campaign_id with
      | some c => decide (c ≠ "") && (scope.campaign_ids.getD []).contains c
      | none => false)
  else if scope.scopeType = some "KEYWORDS" ∧ scope.keyword_ids.getD [] ≠ [] then
    kws.filter (fun k => decide (k.id ≠ "") && (scope.keyword_ids.getD []).contains k.id)
  else kws

/-- The condition list evaluated by `buildActionsForRule`:
`Array.isArray(settings.conditions) ? settings.conditions
 : settings.metric ? [{metric, comparison: condition || condition_op || '>',
                       value: threshold}] : []`. -/
def conditionsOf (s : RuleSettings) : List Cond :=
  match s.conditions with
  | some l => l
  | none =>
    match s.metric with
    | some m =>
      [{ metric := m,
         comparison := some ((s.condition.orElse fun _ => s.condition_op).getD ">"),
         condition := none, value := s.threshold, threshold := none }]
    | none => []

/-- `cond.comparison || cond.condition || '>'`. -/
def condCmp (c : Cond) : String := ((c.comparison.orElse fun _ => c.condition).getD ">")

/-- `cond.value != null ? cond.value : cond.threshold`. -/
def condTarget (c : Cond) : Option ℚ := if c.value.isSome then c.value else c.threshold

/-- The per-keyword condition loop: all conditions must hold (logical AND);
on success it yields the metrics snapshot recorded for the audit log. -/
def evalConditions (kw : KwRow) : List Cond → Option (List (String × ℚ))
  | [] => some []
  | c :: rest =>
    let val := getMetricValue kw c.metric
    if compareMetric val (condCmp c) (condTarget c) then
      match evalConditions kw rest with
      | some snap => some ((c.metric, val) :: snap)
      | none => none
    else none

/-- The user-facing action string:
`typeof settings.action === 'string' ? settings.action
 : (actionConf.type || 'adjust_bid_percentage')`. -/
def uiActionOf (s : RuleSettings) : String :=
  match s.action with
  | ActionCfg.ofString str => str
  | ActionCfg.ofConf ty _ _ _ => ty.getD "adjust_bid_percentage"
  | ActionCfg.absent => "adjust_bid_percentage"

/-- `actionConf.value` (`undefined` when `settings.action` is a string). -/
def actionConfValue (s : RuleSettings) : Option ℚ :=
  match s.action with
  | ActionCfg.ofConf _ v _ _ => v
  | _ => none

/-- `actionConf.min_bid`. -/
def actionConfMinBid (s : RuleSettings) : Option ℚ :=
  match s.action with
  | ActionCfg.ofConf _ _ mn _ => mn
  | _ => none

/-- `actionConf.max_bid`. -/
def actionConfMaxBid (s : RuleSettings) : Option ℚ :=
  match s.action with
  | ActionCfg.ofConf _ _ _ mx => mx
  | _ => none

/-- Mapping of the UI action to the low-level API type. -/
def apiTypeOf (ui : String) : String :=
  if ui = "pause_keyword" then "pause"
  else if ui = "decrease_bid" ∨ ui = "increase_bid" then "adjust_bid_percentage"
  else ui

/-- `Number(raw.toFixed(2))`: rounding to two decimals (ties away from
zero for the nonnegative bids at hand, which is `round`). -/
def round2 (q : ℚ) : ℚ := (round (100 * q) : ℤ) / 100

/-- The new-bid computation of `buildActionsForRule`: for a percentage
adjustment, `rawPct = Number(actionConf.value ?? settings.action_value ?? 0)`,
the sign is forced by `decrease_bid` / `increase_bid`,
`raw = currentBid * (1 + pct / 100)`, and the result is
`Math.min(maxBid, Math.max(minBid, Number(raw.toFixed(2))))` with
`minBid = actionConf.min_bid ?? 0.02` and `maxBid = actionConf.max_bid ?? 10.0`;
for any other action type the bid is left unchanged. -/
def computeNewBid (s : RuleSettings) (currentBid : ℚ) : ℚ :=
  let ui := uiActionOf s
  if apiTypeOf ui = "adjust_bid_percentage" then
    let rawPct := ((actionConfValue s).orElse fun _ => s.action_value).getD 0
    let pct := if ui = "decrease_bid" then -|rawPct|
      else if ui = "increase_bid" then |rawPct| else rawPct
    let raw := currentBid * (1 + pct / 100)
    let minBid := (actionConfMinBid s).getD (2 / 100)
    let maxBid := (actionConfMaxBid s).getD 10
    min maxBid (max minBid (round2 raw))
  else currentBid

/-- One proposed action descriptor. -/
structure RuleAction where
  apiType : String
  logAction : String
  keywordAmazonId : String
  keywordRowId : String
  campaignId : Option String
  currentBid : ℚ
  newBid : ℚ
  metricsSnapshot : List (String × ℚ)

/-- `buildActionsForRule(rule, account, keywordsForAccount)`. -/
def buildActionsForRule (rule : Rule) (kws : List KwRow) : List RuleAction :=
  let s := settingsOf rule
  let entity := jsToLower (s.entity.getD "keyword")
  if entity ≠ "keyword" then []
  else
    (filterKeywordsByScope kws (s.scope.getD ⟨none, none, none⟩)).filterMap fun kw =>
      match evalConditions kw (conditionsOf s) with
      | none => none
      | some snap =>
        let currentBid := kw.bid.getD 0
        let ui := uiActionOf s
        some { apiType := apiTypeOf ui, logAction := ui,
               keywordAmazonId := kw.keyword_id, keywordRowId := kw.id,
               campaignId := kw.campaign_id, currentBid := currentBid,
               newBid := computeNewBid s currentBid, metricsSnapshot := snap }

/-- The per-rule step of `processAccount`: a rule that is not due is
skipped entirely (no actions, `last_run` untouched); a due rule produces
its actions and `last_run` is set to now even when no action resulted. -/
def processRule (rule : Rule) (kws : List KwRow) (now : ℚ) :
    List RuleAction × Option ℚ :=
  if ruleDue rule now then (buildActionsForRule rule kws, some now)
  else ([], rule.last_run)

theorem hoursBetween_nonneg (a b : ℚ) : 0 ≤ hoursBetween a b :=
  div_nonneg (abs_nonneg _) (by norm_num)

/-- C3: a rule whose cooldown has not elapsed (hours since `last_run`
strictly below `freqDays * 24`) is skipped entirely: zero actions and
`last_run` unchanged. -/
theorem cooldown_gating (rule : Rule) (kws : List KwRow) (now lr : ℚ)
    (hlast : rule.last_run = some lr)
    (hcool : hoursBetween lr now < freqDaysOf (settingsOf rule) * 24) :
    processRule rule kws now = ([], some lr) := by
  have h0 : 0 ≤ hoursBetween lr now := hoursBetween_nonneg lr now
  have hf : ¬ freqDaysOf (settingsOf rule) ≤ 0 := by
    intro hle
    have h24 : freqDaysOf (settingsOf rule) * 24 ≤ 0 := by nlinarith
    linarith
  have hdue : ruleDue rule now = false := by
    unfold ruleDue
    rw [if_neg hf, hlast]
    simp only [ge_iff_le, decide_eq_false_iff_not, not_le]
    exact hcool
  unfold processRule
  rw [hdue, hlast]
  simp

/-- A rule with `frequency_days = 1` whose `last_run` is ten hours before
the reference time `1000000000` ms. -/
def cooldownRule : Rule :=
  { settings := some { emptySettings with frequency_days := some 1 },
    last_run := some 964000000 }

/-- Witness for C3: the rule with `frequency_days = 1` and
`last_run = now - 10h` produces zero actions and keeps its `last_run`. -/
theorem cooldown_gating_witness :
    processRule cooldownRule [] 1000000000 = ([], some 964000000) :=
  cooldown_gating cooldownRule [] 1000000000 964000000 rfl
    (by norm_num [hoursBetween, freqDaysOf, settingsOf, cooldownRule, emptySettings])

/-- C9: `ruleDue` is immediately true when the computed cooldown is zero or
negative, and when `last_run` is NULL; in particular a rule with
`frequency_days = 0` is due on every pass regardless of `last_run`. -/
theorem ruleDue_edge_cases :
    (∀ (rule : Rule) (now : ℚ), freqDaysOf (settingsOf rule) ≤ 0 →
      ruleDue rule now = true) ∧
    (∀ (rule : Rule) (now : ℚ), rule.last_run = none → ruleDue rule now = true) ∧
    (∀ (s : RuleSettings) (lr : Option ℚ) (now : ℚ), s.frequency_days = some 0 →
      ruleDue { settings := some s, last_run := lr } now = true) := by
  refine ⟨fun rule now h => ?_, fun rule now h => ?_, fun s lr now h => ?_⟩
  · unfold ruleDue
    rw [if_pos h]
  · unfold ruleDue
    by_cases hf : freqDaysOf (settingsOf rule) ≤ 0
    · rw [if_pos hf]
    · rw [if_neg hf, h]
  · have hs : freqDaysOf (settingsOf { settings := some s, last_run := lr }) = 0 := by
      show freqDaysOf s = 0
      unfold freqDaysOf
      rw [h]
    unfold ruleDue
    rw [hs, if_pos le_rfl]

/-- Settings whose only field is `frequency_days = 0`. -/
def zeroFreqSettings : RuleSettings := { emptySettings with frequency_days := some 0 }

/-- Witness for C9: a rule with `frequency_days = 0` that ran a moment ago
is still due. -/
theorem ruleDue_edge_cases_witness :
    ruleDue { settings := some zeroFreqSettings, last_run := some 999999999 }
      1000000000 = true :=
  ruleDue_edge_cases.2.2 zeroFreqSettings (some 999999999) 1000000000 rfl

/-- C10: each of the three equality spellings in `compareMetric` holds
exactly when the metric value is within `1e-6` of the threshold — a
tolerance comparison, not exact equality (witnessed by a value that differs
from the threshold yet compares equal). -/
theorem equality_comparator_tolerance :
    (∀ v t : ℚ, compareMetric v "==" (some t) = true ↔ |v - t| < 1 / 1000000) ∧
    (∀ v t : ℚ, compareMetric v "equals" (some t) = true ↔ |v - t| < 1 / 1000000) ∧
    (∀ v t : ℚ, compareMetric v "=" (some t) = true ↔ |v - t| < 1 / 1000000) ∧
    (compareMetric 0 "==" (some (1 / 10000000)) = true ∧ (0 : ℚ) ≠ 1 / 10000000) := by
  refine ⟨fun v t => ?_, fun v t => ?_, fun v t => ?_,
    by simp [compareMetric]; norm_num [abs_of_nonneg], by norm_num⟩ <;>
    simp [compareMetric]

/-- Witness for C10: applying the tolerance characterization at `v = 3`,
`t = 3`. -/
theorem equality_comparator_tolerance_witness :
    compareMetric 3 "==" (some 3) = true :=
  (equality_comparator_tolerance.1 3 3).mpr (by norm_num)

/-- The effective raw percentage `Number(actionConf.value ?? settings.action_value ?? 0)`. -/
def rawPctOf (s : RuleSettings) : ℚ :=
  (((actionConfValue s).orElse fun _ => s.action_value).getD 0)

theorem jsToLower_keyword : jsToLower "keyword" = "keyword" := rfl

/-- A `decrease_bid 50%` rule with an empty condition list. -/
def decreaseSettings : RuleSettings :=
  { emptySettings with action := ActionCfg.ofString "decrease_bid",
                       action_value := some 50, conditions := some [] }

/-- An `increase_bid 500%` rule with an empty condition list. -/
def increaseSettings : RuleSettings :=
  { emptySettings with action := ActionCfg.ofString "increase_bid",
                       action_value := some 500, conditions := some [] }

/-- A keyword row with current bid `0.10`. -/
def kwBidTen : KwRow :=
  { id := "r1", campaign_id := some "c1", keyword_id := "AK1", bid := some (1 / 10),
    spend := some 0, impressions := some 0, clicks := some 0, orders := some 0,
    acos := some 0 }

/-- A keyword row with current bid `2.00`. -/
def kwBidTwo : KwRow :=
  { id := "r2", campaign_id := some "c1", keyword_id := "AK2", bid := some 2,
    spend := some 0, impressions := some 0, clicks := some 0, orders := some 0,
    acos := some 0 }

/-- C4: a percentage bid adjustment multiplies the current bid by
`1 ± pct/100` (sign forced by decrease/increase), rounds to two decimals
and clamps into `[min_bid, max_bid]` (defaults `0.02` and `10.00`); with
the default bounds the result always lies in `[0.02, 10]`; in particular a
−50% adjustment of bid 0.10 yields 0.05, and a +500% adjustment of bid
2.00 yields 10.00, not 12.00. -/
theorem bid_adjustment :
    (∀ (s : RuleSettings) (bid : ℚ), uiActionOf s = "decrease_bid" →
      computeNewBid s bid = min ((actionConfMaxBid s).getD 10)
        (max ((actionConfMinBid s).getD (2 / 100))
          (round2 (bid * (1 - |rawPctOf s| / 100))))) ∧
    (∀ (s : RuleSettings) (bid : ℚ), uiActionOf s = "increase_bid" →
      computeNewBid s bid = min ((actionConfMaxBid s).getD 10)
        (max ((actionConfMinBid s).getD (2 / 100))
          (round2 (bid * (1 + |rawPctOf s| / 100))))) ∧
    (∀ (s : RuleSettings) (bid : ℚ), apiTypeOf (uiActionOf s) = "adjust_bid_percentage" →
      actionConfMinBid s = none → actionConfMaxBid s = none →
      2 / 100 ≤ computeNewBid s bid ∧ computeNewBid s bid ≤ 10) ∧
    (buildActionsForRule { settings := some decreaseSettings, last_run := none }
        [kwBidTen]).map (fun a => (a.currentBid, a.newBid)) = [(1 / 10, 1 / 20)] ∧
    (buildActionsForRule { settings := some increaseSettings, last_run := none }
        [kwBidTwo]).map (fun a => (a.currentBid, a.newBid)) = [(2, 10)] := by
  refine ⟨?_, ?_, ?_, ?_, ?_⟩
  · intro s bid h
    unfold computeNewBid rawPctOf
    rw [h]
    simp [apiTypeOf]
    ring_nf
  · intro s bid h
    unfold computeNewBid rawPctOf
    rw [h]
    simp [apiTypeOf]
  · intro s bid h hmn hmx
    unfold computeNewBid
    rw [if_pos h, hmn, hmx]
    simp only [Option.getD_none]
    constructor
    · exact le_min (by norm_num) (le_max_left _ _)
    · exact min_le_left _ _
  · simp [buildActionsForRule, settingsOf, decreaseSettings, emptySettings,
      jsToLower_keyword, filterKeywordsByScope, conditionsOf, evalConditions,
      uiActionOf, apiTypeOf, computeNewBid, actionConfValue, actionConfMinBid,
      actionConfMaxBid, kwBidTen, round2]
    norm_num
  · simp [buildActionsForRule, settingsOf, increaseSettings, emptySettings,
      jsToLower_keyword, filterKeywordsByScope, conditionsOf, evalConditions,
      uiActionOf, apiTypeOf, computeNewBid, actionConfValue, actionConfMinBid,
      actionConfMaxBid, kwBidTwo, round2]
    norm_num

/-- Witness for C4: the decrease-branch formula applied to the concrete
−50% rule at bid 0.10. -/
theorem bid_adjustment_witness :
    computeNewBid decreaseSettings (1 / 10) =
      min ((actionConfMaxBid decreaseSettings).getD 10)
        (max ((actionConfMinBid decreaseSettings).getD (2 / 100))
          (round2 ((1 / 10) * (1 - |rawPctOf decreaseSettings| / 100)))) :=
  bid_adjustment.1 decreaseSettings (1 / 10) rfl

/-! ### Report creation (`getCampaignMetrics` / `getKeywordMetrics`) -/

/-- The creation response observed by `getCampaignMetrics`:
`status` is the HTTP status, `reportId` the body's `reportId` field, and
`detailUuid` the result of matching the UUID pattern against the body's
free-text `detail` field (`none` when `detail` is not a string or carries
no UUID). -/
structure CreateResponse where
  status : ℕ
  reportId : Option String
  detailUuid : Option String

/-- `res.ok`: status in the 200–299 range. -/
def resOk (status : ℕ) : Bool := decide (200 ≤ status ∧ status ≤ 299)

/-- The report id resolved from the creation response:
`createRes.ok && createJson.reportId` first, else the UUID extracted from
the 425 duplicate-job detail text. -/
def resolveReportId (r : CreateResponse) : Option String :=
  if resOk r.status ∧ r.reportId.isSome then r.reportId
  else if r.status = 425 then r.detailUuid
  else none

/-- What the creation phase does when no id was resolved: the listed
client-error statuses return an empty map, anything else throws. -/
inductive CreatePhase
  | proceed (reportId : String)
  | emptyMap
  | thrown (status : ℕ)

/-- The `if (!reportId) { ... }` classification inside the `try` block. -/
def classifyCreate (r : CreateResponse) : CreatePhase :=
  match resolveReportId r with
  | some id => CreatePhase.proceed id
  | none =>
    if r.status = 400 ∨ r.status = 403 ∨ r.status = 404 ∨ r.status = 405 ∨
        r.status = 425 then CreatePhase.emptyMap
    else CreatePhase.thrown r.status

/-- The observable outcome of the metrics call at the creation step: the
whole body of `getCampaignMetrics` sits in a `try { ... } catch (e) {
return new Map(); }`, so a thrown creation error is converted into the
same empty map (`none`); `some id` means the call proceeds to polling. -/
def createOutcomeAfterCatch (r : CreateResponse) : Option String :=
  match classifyCreate r with
  | CreatePhase.proceed id => some id
  | CreatePhase.emptyMap => none
  | CreatePhase.thrown _ => none

/-- C5 (counterexample): the claim says a creation status outside
{400, 403, 404, 405, 425} is a hard failure propagated to the caller.  At
status 500 the creation step does throw internally, but the function's own
catch-all swallows the error and the call yields the empty result, exactly
as for the listed statuses — nothing is propagated. -/
theorem create_failure_counterexample :
    classifyCreate ⟨500, none, none⟩ = CreatePhase.thrown 500 ∧
      createOutcomeAfterCatch ⟨500, none, none⟩ = none ∧
      createOutcomeAfterCatch ⟨403, none, none⟩ = none := by
  refine ⟨?_, ?_, ?_⟩ <;> rfl

/-- C5 (amended): when no report id can be resolved, the statuses
400/403/404/405/425 yield the empty result without an exception; every
other status raises an internal error that the call's own catch-all also
converts into the empty result, so no creation failure reaches the
caller — the two cases differ only in the logged classification. -/
theorem create_failure_classification (r : CreateResponse)
    (hid : resolveReportId r = none) :
    ((r.status = 400 ∨ r.status = 403 ∨ r.status = 404 ∨ r.status = 405 ∨
        r.status = 425) →
      classifyCreate r = CreatePhase.emptyMap) ∧
    (¬(r.status = 400 ∨ r.status = 403 ∨ r.status = 404 ∨ r.status = 405 ∨
        r.status = 425) →
      classifyCreate r = CreatePhase.thrown r.status) ∧
    createOutcomeAfterCatch r = none := by
  have hcl : classifyCreate r =
      (if r.status = 400 ∨ r.status = 403 ∨ r.status = 404 ∨ r.status = 405 ∨
          r.status = 425 then CreatePhase.emptyMap
       else CreatePhase.thrown r.status) := by
    unfold classifyCreate
    rw [hid]
  refine ⟨fun h => by rw [hcl, if_pos h], fun h => by rw [hcl, if_neg h], ?_⟩
  unfold createOutcomeAfterCatch
  rw [hcl]
  by_cases h : r.status = 400 ∨ r.status = 403 ∨ r.status = 404 ∨ r.status = 405 ∨
      r.status = 425
  · rw [if_pos h]
  · rw [if_neg h]

/-- Witness for C5: the classification applied to a concrete 404 response
with no resolvable id. -/
theorem create_failure_classification_witness :
    classifyCreate ⟨404, none, none⟩ = CreatePhase.emptyMap :=
  (create_failure_classification ⟨404, none, none⟩ rfl).1 (by decide)

/-! ### Metric carry-over in `syncAccount` -/

/-- The stored metric columns of an `amazon_campaigns` row as loaded into
`oldCampaignMetricsByCampaignId` (`Number(c.x ?? 0) || 0`). -/
@[ext]
structure StoredCampaignMetrics where
  spend : ℚ
  impressions : ℚ
  clicks : ℚ
  orders : ℚ
  acos : ℚ
  ctr : ℚ
  cpc : ℚ
deriving DecidableEq

/-- A fresh per-campaign report entry as stored in `metricsByCampaignId`
(fields `impressions, clicks, cost, orders, sales, acos, ctr, cpc`). -/
structure ReportCampaignMetrics where
  impressions : ℚ
  clicks : ℚ
  cost : ℚ
  orders : ℚ
  sales : ℚ
  acos : ℚ
  ctr : ℚ
  cpc : ℚ
deriving DecidableEq

/-- The shape of `base = newM || oldM || {zeros}`: a JS object whose
fields may each be absent, read back with `?? 0` fallbacks. -/
structure MetricsBase where
  spend : Option ℚ
  cost : Option ℚ
  impressions : Option ℚ
  clicks : Option ℚ
  orders : Option ℚ
  sales : Option ℚ
  acos : Option ℚ
  ctr : Option ℚ
  cpc : Option ℚ

/-- An old stored row as `base`: it has `spend` but neither `cost` nor
`sales`. -/
def baseOfOld (m : StoredCampaignMetrics) : MetricsBase :=
  { spend := some m.spend, cost := none, impressions := some m.impressions,
    clicks := some m.clicks, orders := some m.orders, sales := none,
    acos := some m.acos, ctr := some m.ctr, cpc := some m.cpc }

/-- A fresh report entry as `base`: it has `cost` and `sales` but no
`spend`. -/
def baseOfNew (m : ReportCampaignMetrics) : MetricsBase :=
  { spend := none, cost := some m.cost, impressions := some m.impressions,
    clicks := some m.clicks, orders := some m.orders, sales := some m.sales,
    acos := some m.acos, ctr := some m.ctr, cpc := some m.cpc }

/-- The zero literal `{impressions:0, clicks:0, cost:0, orders:0, sales:0,
acos:0, ctr:0, cpc:0}` used when neither fresh nor old metrics exist. -/
def baseZero : MetricsBase :=
  { spend := none, cost := some 0, impressions := some 0, clicks := some 0,
    orders := some 0, sales := some 0, acos := some 0, ctr := some 0,
    cpc := some 0 }

/-- The metric fields of the row `syncAccount` builds for one campaign in
`campaignsToInsert`: `base = newM || oldM || zeros`,
`spend = base.cost ?? base.spend ?? 0`, and the ratios are recomputed when
their denominators are positive, else taken from `base` with `?? 0`. -/
def campaignWrite (newM : Option ReportCampaignMetrics)
    (oldM : Option StoredCampaignMetrics) : StoredCampaignMetrics :=
  let base := match newM with
    | some n => baseOfNew n
    | none =>
      match oldM with
      | some o => baseOfOld o
      | none => baseZero
  let spend := (base.cost.orElse fun _ => base.spend).getD 0
  let impressions := base.impressions.getD 0
  let clicks := base.clicks.getD 0
  let orders := base.orders.getD 0
  let sales := base.sales.getD 0
  { spend := spend, impressions := impressions, clicks := clicks,
    orders := orders,
    acos := if sales > 0 then spend / sales else base.acos.getD 0,
    ctr := if impressions > 0 then clicks / impressions else base.ctr.getD 0,
    cpc := if clicks > 0 then spend / clicks else base.cpc.getD 0 }

/-- The stored metric columns of an `amazon_keywords` row as loaded into
`oldKeywordMetricsByKeywordId`. -/
structure StoredKeywordMetrics where
  spend : ℚ
  impressions : ℚ
  clicks : ℚ
  orders : ℚ
  acos : ℚ
deriving DecidableEq

/-- A fresh per-keyword report entry as stored in `keywordMetricsById`. -/
structure KeywordReportRow where
  campaignId : String
  adGroupId : String
  impressions : ℚ
  clicks : ℚ
  cost : ℚ
  orders : ℚ
  sales : ℚ
deriving DecidableEq

/-- The metric fields first written into a keyword row:
`oldKw.x ?? 0` where `oldKw` is the stored entry or `{}` for a new
keyword. -/
def keywordRowBase (oldKw : Option StoredKeywordMetrics) : StoredKeywordMetrics :=
  match oldKw with
  | some o => o
  | none => ⟨0, 0, 0, 0, 0⟩

/-- The enrichment of one keyword row from the keyword report
(`row.acos = sales > 0 ? spend / (sales || 1) : 0`); a row with no report
entry is left untouched. -/
def enrichKeyword (stored : StoredKeywordMetrics)
    (entry : Option KeywordReportRow) : StoredKeywordMetrics :=
  match entry with
  | none => stored
  | some m =>
    { spend := m.cost, impressions := m.impressions, clicks := m.clicks,
      orders := m.orders,
      acos := if m.sales > 0 then m.cost / m.sales else 0 }

/-- The metric fields finally written for one keyword: the enrichment loop
runs only when the keyword report map is non-empty
(`if (keywordMetricsById && keywordMetricsById.size > 0)`). -/
def keywordWrite (oldKw : Option StoredKeywordMetrics)
    (reportMap : List (String × KeywordReportRow)) (amazonId : String) :
    StoredKeywordMetrics :=
  let base := keywordRowBase oldKw
  if reportMap.isEmpty then base
  else enrichKeyword base (reportMap.lookup amazonId)

/-- A stored campaign row whose `ctr` column disagrees with
`clicks / impressions`. -/
def inconsistentOldCampaign : StoredCampaignMetrics :=
  { spend := 5, impressions := 100, clicks := 10, orders := 1, acos := 1 / 5,
    ctr := 1 / 2, cpc := 7 / 10 }

/-- C1 (counterexample): with the campaign report empty, the row written
back for a stored campaign with `impressions = 100`, `clicks = 10` and a
stored `ctr = 0.5` has `ctr = 10/100 = 0.1 ≠ 0.5`: `ctr` (and likewise
`cpc`) is recomputed from the carried counts rather than copied, so not
every stored metric field is written back exactly. -/
theorem carryover_counterexample :
    (campaignWrite none (some inconsistentOldCampaign)).ctr = 1 / 10 ∧
      inconsistentOldCampaign.ctr = 1 / 2 ∧ (1 / 10 : ℚ) ≠ 1 / 2 := by
  refine ⟨?_, rfl, by norm_num⟩
  show (if (100 : ℚ) > 0 then (10 : ℚ) / 100 else (1 : ℚ) / 2) = 1 / 10
  norm_num

/-- C1 (amended): when the campaign report is empty or unavailable, the
written campaign row carries `spend`, `impressions`, `clicks`, `orders`
and `acos` over exactly; `ctr` and `cpc` are recomputed from the carried
counts (and so also equal their stored values whenever the stored row is
self-consistent), and nothing is reset to zero.  When the keyword report
is empty, every stored keyword metric field is carried over exactly. -/
theorem carryover_on_empty_report (o : StoredCampaignMetrics) :
    ((campaignWrite none (some o)).spend = o.spend ∧
      (campaignWrite none (some o)).impressions = o.impressions ∧
      (campaignWrite none (some o)).clicks = o.clicks ∧
      (campaignWrite none (some o)).orders = o.orders ∧
      (campaignWrite none (some o)).acos = o.acos) ∧
    ((campaignWrite none (some o)).ctr =
        (if o.impressions > 0 then o.clicks / o.impressions else o.ctr) ∧
      (campaignWrite none (some o)).cpc =
        (if o.clicks > 0 then o.spend / o.clicks else o.cpc)) ∧
    ((o.impressions > 0 → o.ctr = o.clicks / o.impressions) →
      (o.clicks > 0 → o.cpc = o.spend / o.clicks) →
      campaignWrite none (some o) = o) ∧
    (∀ (ok : StoredKeywordMetrics) (aid : String),
      keywordWrite (some ok) [] aid = ok) := by
  have hspend : (campaignWrite none (some o)).spend = o.spend := rfl
  have himp : (campaignWrite none (some o)).impressions = o.impressions := rfl
  have hclk : (campaignWrite none (some o)).clicks = o.clicks := rfl
  have hord : (campaignWrite none (some o)).orders = o.orders := rfl
  have hacos : (campaignWrite none (some o)).acos = o.acos := by
    show (if (0 : ℚ) > 0 then o.spend / 0 else o.acos) = o.acos
    norm_num
  have hctr : (campaignWrite none (some o)).ctr =
      (if o.impressions > 0 then o.clicks / o.impressions else o.ctr) := rfl
  have hcpc : (campaignWrite none (some o)).cpc =
      (if o.clicks > 0 then o.spend / o.clicks else o.cpc) := rfl
  refine ⟨⟨hspend, himp, hclk, hord, hacos⟩, ⟨hctr, hcpc⟩, ?_, fun ok aid => rfl⟩
  intro hc1 hc2
  have e1 : (if o.impressions > 0 then o.clicks / o.impressions else o.ctr) = o.ctr := by
    by_cases h : o.impressions > 0
    · rw [if_pos h, (hc1 h).symm]
    · rw [if_neg h]
  have e2 : (if o.clicks > 0 then o.spend / o.clicks else o.cpc) = o.cpc := by
    by_cases h : o.clicks > 0
    · rw [if_pos h, (hc2 h).symm]
    · rw [if_neg h]
  exact StoredCampaignMetrics.ext hspend himp hclk hord hacos (hctr.trans e1) (hcpc.trans e2)

/-- Witness for C1: the carry-over applied to a self-consistent stored row
(`ctr = clicks/impressions`, `cpc = spend/clicks`) reproduces it exactly,
and an empty keyword report leaves a stored keyword row untouched. -/
theorem carryover_on_empty_report_witness :
    campaignWrite none (some ⟨5, 100, 10, 1, 1 / 5, 1 / 10, 1 / 2⟩) =
        ⟨5, 100, 10, 1, 1 / 5, 1 / 10, 1 / 2⟩ ∧
      keywordWrite (some ⟨5, 100, 10, 1, 1 / 5⟩) [] "AK1" = ⟨5, 100, 10, 1, 1 / 5⟩ := by
  constructor
  · exact (carryover_on_empty_report ⟨5, 100, 10, 1, 1 / 5, 1 / 10, 1 / 2⟩).2.2.1
      (fun _ => by norm_num) (fun _ => by norm_num)
  · exact (carryover_on_empty_report ⟨5, 100, 10, 1, 1 / 5, 1 / 10, 1 / 2⟩).2.2.2
      ⟨5, 100, 10, 1, 1 / 5⟩ "AK1"

/-! ### Fallback aggregation (`syncAccount`, campaign rollups from the
keyword report) -/

/-- Lookup in an insertion-ordered association list (the embedding of
`Map.prototype.get`). -/
def alookup {α : Type} (cid : String) : List (String × α) → Option α
  | [] => none
  | (c, a) :: rest => if c = cid then some a else alookup cid rest

/-- Per-campaign running totals (`{impressions:0, clicks:0, cost:0,
orders:0, sales:0}`). -/
@[ext]
structure CampTotals where
  impressions : ℚ
  clicks : ℚ
  cost : ℚ
  orders : ℚ
  sales : ℚ

def zeroTotals : CampTotals := ⟨0, 0, 0, 0, 0⟩

/-- `a.x += Number(m.x || 0)` for the five summed fields. -/
def addRowTotals (a : CampTotals) (m : KeywordReportRow) : CampTotals :=
  { impressions := a.impressions + m.impressions, clicks := a.clicks + m.clicks,
    cost := a.cost + m.cost, orders := a.orders + m.orders,
    sales := a.sales + m.sales }

/-- `agg.set(cid, a)` where `a = (agg.get(cid) || zeros) + m`: in-place
update of an existing key, append of a new one (`Map` insertion order). -/
def aggUpdate : List (String × CampTotals) → String → KeywordReportRow →
    List (String × CampTotals)
  | [], cid, m => [(cid, addRowTotals zeroTotals m)]
  | (c, a) :: rest, cid, m =>
    if c = cid then (c, addRowTotals a m) :: rest
    else (c, a) :: aggUpdate rest cid m

/-- The aggregation loop over `keywordMetricsById.values()`: rows with an
empty `campaignId` are skipped. -/
def aggregateCampaignTotals : List KeywordReportRow → List (String × CampTotals) →
    List (String × CampTotals)
  | [], acc => acc
  | m :: rest, acc =>
    if m.campaignId = "" then aggregateCampaignTotals rest acc
    else aggregateCampaignTotals rest (aggUpdate acc m.campaignId m)

/-- The rollup written into `metricsByCampaignId` for one campaign:
`ctr = clicks/impressions`, `cpc = cost/clicks`, `acos = cost/sales`,
each `0` when its denominator is not positive. -/
def deriveMetrics (a : CampTotals) : ReportCampaignMetrics :=
  { impressions := a.impressions, clicks := a.clicks, cost := a.cost,
    orders := a.orders, sales := a.sales,
    acos := if a.sales > 0 then a.cost / a.sales else 0,
    ctr := if a.impressions > 0 then a.clicks / a.impressions else 0,
    cpc := if a.clicks > 0 then a.cost / a.clicks else 0 }

/-- The fallback step of `syncAccount` (rolling-schedule variant,
`part_000` lines 1211–1267): when the campaign report map is empty and
strict mode is off, replace it by the keyword-report aggregation provided
the aggregation is non-empty; when strict mode is on (or the campaign map
is non-empty) leave the map untouched. -/
def fallbackCampaignMetrics (campMap : List (String × ReportCampaignMetrics))
    (kwValues : List KeywordReportRow) (strict : Bool) :
    List (String × ReportCampaignMetrics) :=
  if campMap.isEmpty ∧ strict = false then
    let agg := aggregateCampaignTotals kwValues []
    if agg.isEmpty then campMap
    else agg.map fun p => (p.1, deriveMetrics p.2)
  else campMap

/-- Totals for one campaign as the spec words them: the component sums of
the keyword rows whose `campaignId` equals the campaign's id. -/
def specTotalsFor (cid : String) (l : List KeywordReportRow) : CampTotals :=
  { impressions :=
      ((l.filter fun m => decide (m.campaignId = cid)).map KeywordReportRow.impressions).sum,
    clicks :=
      ((l.filter fun m => decide (m.campaignId = cid)).map KeywordReportRow.clicks).sum,
    cost :=
      ((l.filter fun m => decide (m.campaignId = cid)).map KeywordReportRow.cost).sum,
    orders :=
      ((l.filter fun m => decide (m.campaignId = cid)).map KeywordReportRow.orders).sum,
    sales :=
      ((l.filter fun m => decide (m.campaignId = cid)).map KeywordReportRow.sales).sum }

/-- Componentwise addition of totals. -/
def addTotals (a b : CampTotals) : CampTotals :=
  { impressions := a.impressions + b.impressions, clicks := a.clicks + b.clicks,
    cost := a.cost + b.cost, orders := a.orders + b.orders,
    sales := a.sales + b.sales }

/-- The running-totals entry for `cid` after folding the row list, started
from `start` (proof-side specification of the aggregation loop). -/
def accTotals (start : Option CampTotals) (l : List KeywordReportRow)
    (cid : String) : Option CampTotals :=
  match l with
  | [] => start
  | m :: rest =>
    if m.campaignId = cid ∧ m.campaignId ≠ "" then
      accTotals (some (addRowTotals (start.getD zeroTotals) m)) rest cid
    else accTotals start rest cid

theorem alookup_aggUpdate (acc : List (String × CampTotals)) (cid2 : String)
    (m : KeywordReportRow) (cid : String) :
    alookup cid (aggUpdate acc cid2 m) =
      if cid2 = cid then some (addRowTotals ((alookup cid acc).getD zeroTotals) m)
      else alookup cid acc := by
  induction acc with
  | nil =>
    by_cases h : cid2 = cid <;> simp [aggUpdate, alookup, h]
  | cons p rest ih =>
    obtain ⟨c, a⟩ := p
    by_cases hc : c = cid2
    · subst hc
      by_cases h : c = cid
      · simp [aggUpdate, alookup, h]
      · simp [aggUpdate, alookup, h]
    · by_cases h : c = cid
      · subst h
        have h2 : ¬ cid2 = c := fun he => hc he.symm
        simp [aggUpdate, alookup, hc, h2]
      · simp [aggUpdate, alookup, hc, h, ih]

theorem alookup_aggregate (l : List KeywordReportRow)
    (acc : List (String × CampTotals)) (cid : String) :
    alookup cid (aggregateCampaignTotals l acc) = accTotals (alookup cid acc) l cid := by
  induction l generalizing acc with
  | nil => simp [aggregateCampaignTotals, accTotals]
  | cons m rest ih =>
    by_cases he : m.campaignId = ""
    · have hun : ¬ (m.campaignId = cid ∧ m.campaignId ≠ "") := fun h => h.2 he
      simp [aggregateCampaignTotals, accTotals, he, hun, ih]
    · by_cases hc : m.campaignId = cid
      · have hyes : m.campaignId = cid ∧ m.campaignId ≠ "" := ⟨hc, he⟩
        simp only [aggregateCampaignTotals, if_neg he, accTotals, if_pos hyes]
        rw [ih, alookup_aggUpdate, if_pos hc]
      · have hno : ¬ (m.campaignId = cid ∧ m.campaignId ≠ "") := fun h => hc h.1
        simp only [aggregateCampaignTotals, if_neg he, accTotals, if_neg hno]
        rw [ih, alookup_aggUpdate, if_neg hc]

theorem addTotals_zero (t : CampTotals) : addTotals t zeroTotals = t := by
  ext <;> simp [addTotals, zeroTotals]

theorem accTotals_some (cid : String) (hcid : cid ≠ "")
    (l : List KeywordReportRow) (t : CampTotals) :
    accTotals (some t) l cid = some (addTotals t (specTotalsFor cid l)) := by
  induction l generalizing t with
  | nil => simp [accTotals, specTotalsFor, addTotals_zero, zeroTotals, addTotals]
  | cons m rest ih =>
    by_cases hc : m.campaignId = cid
    · have hne : m.campaignId ≠ "" := hc ▸ hcid
      simp only [accTotals, if_pos (And.intro hc hne), Option.getD_some]
      rw [ih]
      congr 1
      ext <;> simp [addTotals, addRowTotals, specTotalsFor, List.filter, hc] <;> ring
    · have hno : ¬ (m.campaignId = cid ∧ m.campaignId ≠ "") := fun h => hc h.1
      simp only [accTotals, if_neg hno]
      rw [ih]
      congr 2
      ext <;> simp [specTotalsFor, List.filter, hc]

theorem accTotals_none (cid : String) (hcid : cid ≠ "")
    (l : List KeywordReportRow) :
    accTotals none l cid =
      if (l.filter fun m => decide (m.campaignId = cid)) = [] then none
      else some (specTotalsFor cid l) := by
  induction l with
  | nil => simp [accTotals]
  | cons m rest ih =>
    by_cases hc : m.campaignId = cid
    · have hne : m.campaignId ≠ "" := hc ▸ hcid
      simp only [accTotals, if_pos (And.intro hc hne), Option.getD_none]
      rw [accTotals_some cid hcid]
      have hfil : (List.filter (fun m => decide (m.campaignId = cid)) (m :: rest)) =
          m :: List.filter (fun m => decide (m.campaignId = cid)) rest := by
        simp [List.filter, hc]
      rw [hfil]
      simp only [List.cons_ne_self, if_neg (List.cons_ne_nil m _)]
      congr 1
      ext <;> simp [addTotals, addRowTotals, specTotalsFor, zeroTotals, hfil, List.filter, hc]
    · have hno : ¬ (m.campaignId = cid ∧ m.campaignId ≠ "") := fun h => hc h.1
      have hfil : (List.filter (fun m => decide (m.campaignId = cid)) (m :: rest)) =
          List.filter (fun m => decide (m.campaignId = cid)) rest := by
        simp [List.filter, hc]
      simp only [accTotals, if_neg hno]
      rw [ih, hfil]
      by_cases hr : (List.filter (fun m => decide (m.campaignId = cid)) rest) = []
      · simp [hr]
      · simp only [if_neg hr]
        congr 1
        ext <;> simp [specTotalsFor, hfil]

theorem alookup_map_snd {α β : Type} (f : α → β) (cid : String) :
    ∀ l : List (String × α),
      alookup cid (l.map fun p => (p.1, f p.2)) = (alookup cid l).map f
  | [] => rfl
  | (c, a) :: rest => by
    by_cases h : c = cid <;> simp [alookup, h, alookup_map_snd f cid rest]

/-- C6: with an empty campaign report, a non-empty keyword report and
strict mode disabled, the campaign rollup of every campaign that owns at
least one keyword row is the componentwise sum of its keyword rows, with
`ctr = clicks/impressions`, `cpc = spend/clicks`, `acos = spend/sales`,
each 0 when its denominator is not positive; with strict mode enabled the
aggregation is skipped and the campaign metrics map is left untouched (so
the prior stored metrics carried into the upserted rows stand). -/
theorem fallback_aggregation :
    (∀ (l : List KeywordReportRow) (cid : String), cid ≠ "" →
      (l.filter fun m => decide (m.campaignId = cid)) ≠ [] →
      alookup cid (fallbackCampaignMetrics [] l false) =
        some (deriveMetrics (specTotalsFor cid l))) ∧
    (∀ a : CampTotals,
      (deriveMetrics a).impressions = a.impressions ∧
      (deriveMetrics a).clicks = a.clicks ∧
      (deriveMetrics a).cost = a.cost ∧
      (deriveMetrics a).orders = a.orders ∧
      (deriveMetrics a).sales = a.sales ∧
      (deriveMetrics a).ctr = (if a.impressions > 0 then a.clicks / a.impressions else 0) ∧
      (deriveMetrics a).cpc = (if a.clicks > 0 then a.cost / a.clicks else 0) ∧
      (deriveMetrics a).acos = (if a.sales > 0 then a.cost / a.sales else 0)) ∧
    (∀ (campMap : List (String × ReportCampaignMetrics))
      (l : List KeywordReportRow), fallbackCampaignMetrics campMap l true = campMap) := by
  refine ⟨?_, fun a => ⟨rfl, rfl, rfl, rfl, rfl, rfl, rfl, rfl⟩, ?_⟩
  · intro l cid hcid hfil
    have hagg : alookup cid (aggregateCampaignTotals l []) =
        some (specTotalsFor cid l) := by
      have h := alookup_aggregate l [] cid
      have h0 : alookup cid ([] : List (String × CampTotals)) = none := rfl
      rw [h0, accTotals_none cid hcid, if_neg hfil] at h
      exact h
    have hne : aggregateCampaignTotals l [] ≠ [] := by
      intro h
      rw [h] at hagg
      exact Option.noConfusion hagg
    unfold fallbackCampaignMetrics
    rw [if_pos (by simp : (([] : List (String × ReportCampaignMetrics)).isEmpty
        ∧ false = false))]
    rw [if_neg (by simp [hne] : ¬ (aggregateCampaignTotals l []).isEmpty = true)]
    rw [alookup_map_snd, hagg]
    rfl
  · intro campMap l
    unfold fallbackCampaignMetrics
    rw [if_neg]
    intro h
    exact absurd h.2 (by decide)

/-- Two keyword rows under campaign `c1` and one under `c2`. -/
def kwReportSample : List KeywordReportRow :=
  [⟨"c1", "g1", 10, 2, 5, 1, 20⟩, ⟨"c1", "g2", 30, 4, 7, 0, 0⟩,
   ⟨"c2", "g3", 1, 0, 0, 0, 0⟩]

/-- Witness for C6: the fallback rollup of campaign `c1` over the sample
keyword report equals the derived sums. -/
theorem fallback_aggregation_witness :
    alookup "c1" (fallbackCampaignMetrics [] kwReportSample false) =
      some (deriveMetrics (specTotalsFor "c1" kwReportSample)) :=
  fallback_aggregation.1 kwReportSample "c1" (by decide)
    (by simp [kwReportSample, List.filter])

/-! ### Structural reconciliation (upsert keyed by provider id)

`syncAccount` loads the existing rows of each collection, builds one row
per remote entity — attaching the existing internal id when the provider
id is already known, otherwise leaving the id to be freshly assigned — and
upserts the batch keyed by the primary-key id.  `SRow` keeps exactly the
identity-relevant parts of a row (internal id, provider id) plus the
remote-determined payload; fresh ids are modelled by a strictly increasing
counter, reflecting that a store-assigned serial id (or a fresh
`randomUUID()`) never collides with an existing id. -/

/-- A stored structural row: internal id, provider id, remote payload. -/
structure SRow where
  rid : ℕ
  pid : String
  payload : String
deriving DecidableEq

/-- One structural collection of the store plus the fresh-id supply. -/
structure SStore where
  rows : List SRow
  nextId : ℕ
deriving DecidableEq

/-- `upsert` of a single row keyed by the primary-key id: update the
existing row with that id, else insert. -/
def upsertOne (rows : List SRow) (r : SRow) : List SRow :=
  if rows.any fun x => decide (x.rid = r.rid) then
    rows.map fun x => if x.rid = r.rid then r else x
  else rows ++ [r]

/-- A batch upsert processes its rows in order. -/
def upsertBatch (rows : List SRow) (batch : List SRow) : List SRow :=
  batch.foldl upsertOne rows

/-- The row-building loop: for each remote entity `(pid, payload)` the row
gets the existing internal id found by provider id in the loaded snapshot
(`oldCampaigns.find(...)`, `existingAdGroupIdMap.get(...)`,
`existingKeywordIdByAmazonId.get(...)`), or a fresh id otherwise. -/
def buildRows (old : List SRow) : List (String × String) → ℕ → List SRow × ℕ
  | [], next => ([], next)
  | (p, d) :: rest, next =>
    match old.find? fun x => decide (x.pid = p) with
    | some r =>
      let br := buildRows old rest next
      (⟨r.rid, p, d⟩ :: br.1, br.2)
    | none =>
      let br := buildRows old rest (next + 1)
      (⟨next, p, d⟩ :: br.1, br.2)

/-- One structural reconciliation pass over a collection. -/
def reconcileStep (s : SStore) (remote : List (String × String)) : SStore :=
  let br := buildRows s.rows remote s.nextId
  { rows := upsertBatch s.rows br.1, nextId := br.2 }

/-- The internal ids of a row list. -/
def ridsOf (rows : List SRow) : List ℕ := rows.map SRow.rid

/-- The provider ids of a row list. -/
def pidsOf (rows : List SRow) : List String := rows.map SRow.pid

/-- Store well-formedness: internal ids unique, provider ids unique, and
every internal id below the fresh-id supply. -/
def storeWF (s : SStore) : Prop :=
  (ridsOf s.rows).Nodup ∧ (pidsOf s.rows).Nodup ∧ ∀ r ∈ s.rows, r.rid < s.nextId

theorem mem_rid_inj {rows : List SRow} (h : (ridsOf rows).Nodup)
    {a b : SRow} (ha : a ∈ rows) (hb : b ∈ rows) (he : a.rid = b.rid) : a = b :=
  List.inj_on_of_nodup_map h ha hb he

theorem find?_of_mem_pidNodup {rows : List SRow} (h : (pidsOf rows).Nodup)
    {r : SRow} (hr : r ∈ rows) :
    rows.find? (fun x => decide (x.pid = r.pid)) = some r := by
  induction rows with
  | nil => cases hr
  | cons a t ih =>
    rcases List.mem_cons.mp hr with rfl | hrt
    · exact List.find?_cons_of_pos _ (by simp)
    · have hne : a.pid ≠ r.pid := by
        intro he
        have : r.pid ∈ pidsOf t := List.mem_map_of_mem SRow.pid hrt
        rw [← he] at this
        exact (List.nodup_cons.mp h).1 this
      rw [List.find?_cons_of_neg _ (by simp [hne])]
      exact ih (List.nodup_cons.mp h).2 hrt

theorem buildRows_le (remote : List (String × String)) :
    ∀ (old : List SRow) (n : ℕ), n ≤ (buildRows old remote n).2 := by
  induction remote with
  | nil => intro old n; exact le_rfl
  | cons pd rest ih =>
    intro old n
    obtain ⟨p, d⟩ := pd
    unfold buildRows
    cases hf : old.find? fun x => decide (x.pid = p) with
    | some r => exact ih old n
    | none => exact le_trans (Nat.le_succ n) (ih old (n + 1))

theorem buildRows_mem_spec (remote : List (String × String)) :
    ∀ (old : List SRow) (n : ℕ) (x : SRow), x ∈ (buildRows old remote n).1 →
      x.pid ∈ remote.map Prod.fst ∧
      ((∃ r0, old.find? (fun y => decide (y.pid = x.pid)) = some r0 ∧ x.rid = r0.rid) ∨
        n ≤ x.rid) := by
  induction remote with
  | nil => intro old n x hx; cases hx
  | cons pd rest ih =>
    intro old n x hx
    obtain ⟨p, d⟩ := pd
    unfold buildRows at hx
    cases hf : old.find? fun y => decide (y.pid = p) with
    | some r =>
      rw [hf] at hx
      rcases List.mem_cons.mp hx with rfl | hxt
      · exact ⟨by simp, Or.inl ⟨r, by simpa using hf, rfl⟩⟩
      · obtain ⟨h1, h2⟩ := ih old n x hxt
        exact ⟨by simp [h1], h2⟩
    | none =>
      rw [hf] at hx
      rcases List.mem_cons.mp hx with rfl | hxt
      · exact ⟨by simp, Or.inr le_rfl⟩
      · obtain ⟨h1, h2⟩ := ih old (n + 1) x hxt
        refine ⟨by simp [h1], ?_⟩
        rcases h2 with h2 | h2
        · exact Or.inl h2
        · exact Or.inr (le_trans (Nat.le_succ n) h2)

theorem buildRows_forall₂ (remote : List (String × String)) :
    ∀ (old : List SRow) (n : ℕ),
      List.Forall₂ (fun (pd : String × String) (b : SRow) =>
        b.pid = pd.1 ∧ b.payload = pd.2) remote (buildRows old remote n).1 := by
  induction remote with
  | nil => intro old n; exact List.Forall₂.nil
  | cons pd rest ih =>
    intro old n
    obtain ⟨p, d⟩ := pd
    unfold buildRows
    cases hf : old.find? fun x => decide (x.pid = p) with
    | some r => exact List.Forall₂.cons ⟨rfl, rfl⟩ (ih old n)
    | none => exact List.Forall₂.cons ⟨rfl, rfl⟩ (ih old (n + 1))

theorem mem_upsertOne_of_rid_ne {cur : List SRow} {r b : SRow}
    (hr : r ∈ cur) (hne : b.rid ≠ r.rid) : r ∈ upsertOne cur b := by
  unfold upsertOne
  by_cases h : cur.any fun x => decide (x.rid = b.rid)
  · rw [if_pos h]
    have : (if r.rid = b.rid then b else r) = r := if_neg (fun he => hne he.symm)
    rw [← this]
    exact List.mem_map_of_mem _ hr
  · rw [if_neg h]
    exact List.mem_append_left _ hr

theorem mem_upsertBatch_stable {batch : List SRow} :
    ∀ {cur : List SRow} {r : SRow}, r ∈ cur → (∀ b ∈ batch, b.rid ≠ r.rid) →
      r ∈ upsertBatch cur batch := by
  induction batch with
  | nil => intro cur r hr _; exact hr
  | cons b rest ih =>
    intro cur r hr hb
    exact ih (mem_upsertOne_of_rid_ne hr (hb b (List.mem_cons_self b rest)))
      fun x hx => hb x (List.mem_cons_of_mem b hx)

theorem upsertOne_eq_map {cur : List SRow} {r w : SRow} (hw : w ∈ cur)
    (he : w.rid = r.rid) :
    upsertOne cur r = cur.map fun x => if x.rid = r.rid then r else x := by
  unfold upsertOne
  rw [if_pos]
  exact List.any_eq_true.mpr ⟨w, hw, by simp [he]⟩

theorem upsertOne_append {cur : List SRow} {r : SRow}
    (h : ∀ x ∈ cur, x.rid ≠ r.rid) : upsertOne cur r = cur ++ [r] := by
  unfold upsertOne
  rw [if_neg]
  intro hany
  obtain ⟨x, hx, hdx⟩ := List.any_eq_true.mp hany
  exact h x hx (of_decide_eq_true hdx)

theorem ridsOf_update (cur : List SRow) (r : SRow) :
    ridsOf (cur.map fun x => if x.rid = r.rid then r else x) = ridsOf cur := by
  unfold ridsOf
  rw [List.map_map]
  apply List.map_congr_left
  intro x _
  simp only [Function.comp_apply]
  by_cases h : x.rid = r.rid
  · rw [if_pos h, h]
  · rw [if_neg h]

theorem pidsOf_update {cur : List SRow} {r w : SRow} (hnod : (ridsOf cur).Nodup)
    (hw : w ∈ cur) (hwr : w.rid = r.rid) (hwp : w.pid = r.pid) :
    pidsOf (cur.map fun x => if x.rid = r.rid then r else x) = pidsOf cur := by
  unfold pidsOf
  rw [List.map_map]
  apply List.map_congr_left
  intro x hx
  simp only [Function.comp_apply]
  by_cases h : x.rid = r.rid
  · have hxw : x = w := mem_rid_inj hnod hx hw (h.trans hwr.symm)
    rw [if_pos h, hxw]
    exact hwp.symm
  · rw [if_neg h]

theorem mem_update_self {cur : List SRow} {r w : SRow} (hw : w ∈ cur)
    (hwr : w.rid = r.rid) :
    r ∈ cur.map fun x => if x.rid = r.rid then r else x :=
  List.mem_map.mpr ⟨w, hw, if_pos hwr⟩

/-- The single-pass analysis of one reconciliation: processing a
remote list with distinct provider ids against an evolving store `cur`
(initially the loaded snapshot `old`) keeps the store well formed, lands
every built row in the resulting store, and only ever assigns fresh ids at
or above the counter. -/
theorem reconcilePass (remote : List (String × String)) :
    ∀ (old cur : List SRow) (next : ℕ),
      (remote.map Prod.fst).Nodup →
      (ridsOf old).Nodup → (∀ r ∈ old, r.rid < next) →
      (ridsOf cur).Nodup → (pidsOf cur).Nodup → (∀ r ∈ cur, r.rid < next) →
      (∀ pd ∈ remote,
        (∀ r0, old.find? (fun x => decide (x.pid = pd.1)) = some r0 →
          ∃ w ∈ cur, w.rid = r0.rid ∧ w.pid = pd.1) ∧
        (old.find? (fun x => decide (x.pid = pd.1)) = none →
          pd.1 ∉ pidsOf cur)) →
      (∀ x ∈ (buildRows old remote next).1,
        x ∈ upsertBatch cur (buildRows old remote next).1) ∧
      (ridsOf (upsertBatch cur (buildRows old remote next).1)).Nodup ∧
      (pidsOf (upsertBatch cur (buildRows old remote next).1)).Nodup ∧
      (∀ r ∈ upsertBatch cur (buildRows old remote next).1,
        r.rid < (buildRows old remote next).2) := by
  induction remote with
  | nil =>
    intro old cur next _ _ _ hcr hcp hcb _
    exact ⟨fun x hx => absurd hx (List.not_mem_nil x), hcr, hcp, hcb⟩
  | cons pd rest ih =>
    intro old cur next hrn holdN holdB hcr hcp hcb hrel
    obtain ⟨p, d⟩ := pd
    have hrestN : (rest.map Prod.fst).Nodup := (List.nodup_cons.mp hrn).2
    have hpnotin : p ∉ rest.map Prod.fst := (List.nodup_cons.mp hrn).1
    cases hf : old.find? fun x => decide (x.pid = p) with
    | some r0 =>
      have hr0mem : r0 ∈ old := List.mem_of_find?_eq_some hf
      have hr0pid : r0.pid = p := by simpa using List.find?_some hf
      obtain ⟨w, hw, hwr, hwp⟩ := (hrel (p, d) (List.mem_cons_self _ _)).1 r0 hf
      set h : SRow := ⟨r0.rid, p, d⟩ with hh
      have hwrh : w.rid = h.rid := hwr
      have hwph : w.pid = h.pid := hwp
      set g : SRow → SRow := fun x => if x.rid = h.rid then h else x with hg
      set cur2 : List SRow := cur.map g with hcur2
      have hstep : upsertOne cur h = cur2 := upsertOne_eq_map hw hwrh
      have hr2 : (ridsOf cur2).Nodup := by
        rw [hcur2, hg, ridsOf_update]; exact hcr
      have hp2 : (pidsOf cur2).Nodup := by
        rw [hcur2, hg, pidsOf_update hcr hw hwrh hwph]; exact hcp
      have hb2 : ∀ r ∈ cur2, r.rid < next := by
        intro r hr
        obtain ⟨x, hx, rfl⟩ := List.mem_map.mp hr
        by_cases hxr : x.rid = h.rid
        · rw [hg]
          simp only [if_pos hxr]
          show h.rid < next
          rw [← hxr]
          exact hcb x hx
        · rw [hg]
          simp only [if_neg hxr]
          exact hcb x hx
      have hrel2 : ∀ qd ∈ rest,
          (∀ rq, old.find? (fun x => decide (x.pid = qd.1)) = some rq →
            ∃ w2 ∈ cur2, w2.rid = rq.rid ∧ w2.pid = qd.1) ∧
          (old.find? (fun x => decide (x.pid = qd.1)) = none →
            qd.1 ∉ pidsOf cur2) := by
        intro qd hqd
        have hqne : qd.1 ≠ p := by
          intro he
          exact hpnotin (he ▸ List.mem_map_of_mem Prod.fst hqd)
        constructor
        · intro rq hfq
          obtain ⟨w0, hw0, hw0r, hw0p⟩ := (hrel qd (List.mem_cons_of_mem _ hqd)).1 rq hfq
          have hrqmem : rq ∈ old := List.mem_of_find?_eq_some hfq
          have hrqpid : rq.pid = qd.1 := by simpa using List.find?_some hfq
          have hrne : rq ≠ r0 := by
            intro he
            exact hqne (hrqpid.symm.trans (he ▸ hr0pid))
          have hridne : rq.rid ≠ r0.rid := by
            intro he
            exact hrne (mem_rid_inj holdN hrqmem hr0mem he)
          have hgw0 : g w0 = w0 := by
            rw [hg]
            exact if_neg (by rw [hw0r]; exact hridne)
          refine ⟨w0, ?_, hw0r, hw0p⟩
          rw [hcur2, ← hgw0]
          exact List.mem_map_of_mem g hw0
        · intro hfq
          have hnp := (hrel qd (List.mem_cons_of_mem _ hqd)).2 hfq
          rw [hcur2, hg, pidsOf_update hcr hw hwrh hwph]
          exact hnp
      have hIH := ih old cur2 next hrestN holdN holdB hr2 hp2 hb2 hrel2
      have hbr1 : (buildRows old ((p, d) :: rest) next).1 =
          (⟨r0.rid, p, d⟩ : SRow) :: (buildRows old rest next).1 := by
        simp only [buildRows, hf]
      have hbr2 : (buildRows old ((p, d) :: rest) next).2 =
          (buildRows old rest next).2 := by
        simp only [buildRows, hf]
      have hfold : upsertBatch cur ((⟨r0.rid, p, d⟩ : SRow) :: (buildRows old rest next).1) =
          upsertBatch cur2 (buildRows old rest next).1 := by
        show upsertBatch (upsertOne cur h) (buildRows old rest next).1 = _
        rw [hstep]
      rw [hbr1, hbr2]
      refine ⟨?_, by rw [hfold]; exact hIH.2.1, by rw [hfold]; exact hIH.2.2.1,
        by rw [hfold]; exact hIH.2.2.2⟩
      intro x hx
      rcases List.mem_cons.mp hx with rfl | hxt
      · rw [hfold]
        have hmem2 : h ∈ cur2 := by
          rw [hcur2, hg]
          exact mem_update_self hw hwrh
        apply mem_upsertBatch_stable hmem2
        intro b hb
        obtain ⟨hbpid, hbrid⟩ := buildRows_mem_spec rest old next b hb
        rcases hbrid with ⟨rb, hfb, hbe⟩ | hfresh
        · have hrbpid : rb.pid = b.pid := by simpa using List.find?_some hfb
          have hrbmem : rb ∈ old := List.mem_of_find?_eq_some hfb
          have hbpne : b.pid ≠ p := by
            intro he
            exact hpnotin (he ▸ hbpid)
          have hrbne : rb ≠ r0 := by
            intro he
            exact hbpne (hrbpid.symm.trans (he ▸ hr0pid))
          rw [hbe]
          intro he
          exact hrbne (mem_rid_inj holdN hrbmem hr0mem he)
        · intro he
          have : h.rid < next := holdB r0 hr0mem
          rw [← he] at this
          exact absurd this (Nat.not_lt.mpr hfresh)
      · rw [hfold]
        exact hIH.1 x hxt
    | none =>
      have hnp : p ∉ pidsOf cur := (hrel (p, d) (List.mem_cons_self _ _)).2 hf
      set h : SRow := ⟨next, p, d⟩ with hh
      set cur2 : List SRow := cur ++ [h] with hcur2
      have hstep : upsertOne cur h = cur2 := by
        rw [hcur2]
        apply upsertOne_append
        intro x hx he
        have hlt := hcb x hx
        rw [he] at hlt
        exact Nat.lt_irrefl next hlt
      have hr2 : (ridsOf cur2).Nodup := by
        rw [hcur2]
        unfold ridsOf
        rw [List.map_append]
        refine List.Nodup.append hcr (by simp) ?_
        intro a ha hb
        simp only [List.map_cons, List.map_nil, List.mem_singleton] at hb
        obtain ⟨x, hx, rfl⟩ := List.mem_map.mp ha
        have hlt := hcb x hx
        rw [hb] at hlt
        exact Nat.lt_irrefl next hlt
      have hp2 : (pidsOf cur2).Nodup := by
        rw [hcur2]
        unfold pidsOf
        rw [List.map_append]
        refine List.Nodup.append hcp (by simp) ?_
        intro a ha hb
        simp only [List.map_cons, List.map_nil, List.mem_singleton] at hb
        subst hb
        exact hnp ha
      have hb2 : ∀ r ∈ cur2, r.rid < next + 1 := by
        intro r hr
        rcases List.mem_append.mp hr with hr | hr
        · exact Nat.lt_succ_of_lt (hcb r hr)
        · rw [List.mem_singleton.mp hr]
          exact Nat.lt_succ_self next
      have holdB2 : ∀ r ∈ old, r.rid < next + 1 :=
        fun r hr => Nat.lt_succ_of_lt (holdB r hr)
      have hrel2 : ∀ qd ∈ rest,
          (∀ rq, old.find? (fun x => decide (x.pid = qd.1)) = some rq →
            ∃ w2 ∈ cur2, w2.rid = rq.rid ∧ w2.pid = qd.1) ∧
          (old.find? (fun x => decide (x.pid = qd.1)) = none →
            qd.1 ∉ pidsOf cur2) := by
        intro qd hqd
        have hqne : qd.1 ≠ p := by
          intro he
          exact hpnotin (he ▸ List.mem_map_of_mem Prod.fst hqd)
        constructor
        · intro rq hfq
          obtain ⟨w0, hw0, hw0r, hw0p⟩ := (hrel qd (List.mem_cons_of_mem _ hqd)).1 rq hfq
          exact ⟨w0, by rw [hcur2]; exact List.mem_append_left _ hw0, hw0r, hw0p⟩
        · intro hfq
          have hq := (hrel qd (List.mem_cons_of_mem _ hqd)).2 hfq
          rw [hcur2]
          unfold pidsOf
          rw [List.map_append]
          intro hmem
          rcases List.mem_append.mp hmem with hmem | hmem
          · exact hq hmem
          · simp only [List.map_cons, List.map_nil, List.mem_singleton] at hmem
            exact hqne hmem
      have hIH := ih old cur2 (next + 1) hrestN holdN holdB2 hr2 hp2 hb2 hrel2
      have hbr1 : (buildRows old ((p, d) :: rest) next).1 =
          (⟨next, p, d⟩ : SRow) :: (buildRows old rest (next + 1)).1 := by
        simp only [buildRows, hf]
      have hbr2 : (buildRows old ((p, d) :: rest) next).2 =
          (buildRows old rest (next + 1)).2 := by
        simp only [buildRows, hf]
      have hfold : upsertBatch cur ((⟨next, p, d⟩ : SRow) :: (buildRows old rest (next + 1)).1) =
          upsertBatch cur2 (buildRows old rest (next + 1)).1 := by
        show upsertBatch (upsertOne cur h) (buildRows old rest (next + 1)).1 = _
        rw [hstep]
      rw [hbr1, hbr2]
      refine ⟨?_, by rw [hfold]; exact hIH.2.1, by rw [hfold]; exact hIH.2.2.1,
        by rw [hfold]; exact hIH.2.2.2⟩
      intro x hx
      rcases List.mem_cons.mp hx with rfl | hxt
      · rw [hfold]
        have hmem2 : h ∈ cur2 := by
          rw [hcur2]
          exact List.mem_append_right _ (List.mem_singleton_self h)
        apply mem_upsertBatch_stable hmem2
        intro b hb
        obtain ⟨hbpid, hbrid⟩ := buildRows_mem_spec rest old (next + 1) b hb
        rcases hbrid with ⟨rb, hfb, hbe⟩ | hfresh
        · have hrbmem : rb ∈ old := List.mem_of_find?_eq_some hfb
          rw [hbe]
          intro he
          have hlt := holdB rb hrbmem
          rw [he] at hlt
          exact Nat.lt_irrefl next hlt
        · intro he
          rw [he] at hfresh
          exact Nat.not_succ_le_self next hfresh
      · rw [hfold]
        exact hIH.1 x hxt

theorem forall₂_imp_mem {α β : Type} {R S : α → β → Prop} :
    ∀ {l1 : List α} {l2 : List β}, List.Forall₂ R l1 l2 →
      (∀ a b, R a b → b ∈ l2 → S a b) → List.Forall₂ S l1 l2 := by
  intro l1 l2 h
  induction h with
  | nil => intro _; exact List.Forall₂.nil
  | cons hab htail ih =>
    intro hs
    refine List.Forall₂.cons (hs _ _ hab (List.mem_cons_self _ _)) (ih ?_)
    intro a b hr hb
    exact hs a b hr (List.mem_cons_of_mem _ hb)

/-- When every remote entity's provider id already resolves (by `find?`)
to its previously assigned row, `buildRows` reproduces exactly that batch
and never advances the fresh-id counter. -/
theorem buildRows_of_found :
    ∀ {remote : List (String × String)} {batch : List SRow} (store : List SRow) (n : ℕ),
      List.Forall₂ (fun (pd : String × String) (b : SRow) =>
        store.find? (fun x => decide (x.pid = pd.1)) = some b ∧
          b.pid = pd.1 ∧ b.payload = pd.2) remote batch →
      buildRows store remote n = (batch, n) := by
  intro remote batch store n h
  induction h generalizing n with
  | nil => rfl
  | @cons pd b rest brest hab htail ih =>
    obtain ⟨p, d⟩ := pd
    obtain ⟨hfind, hpid, hpay⟩ := hab
    have hb : (⟨b.rid, p, d⟩ : SRow) = b := by
      cases b
      simp only at hpid hpay ⊢
      rw [hpid, hpay]
    show (match store.find? fun x => decide (x.pid = p) with
      | some r =>
        let br := buildRows store rest n
        ((⟨r.rid, p, d⟩ : SRow) :: br.1, br.2)
      | none =>
        let br := buildRows store rest (n + 1)
        ((⟨n, p, d⟩ : SRow) :: br.1, br.2)) = (b :: brest, n)
    rw [hfind, ih n]
    simp only [hb]

theorem upsertOne_self {store : List SRow} {b : SRow}
    (hnod : (ridsOf store).Nodup) (hb : b ∈ store) : upsertOne store b = store := by
  rw [upsertOne_eq_map hb rfl]
  have : store.map (fun x => if x.rid = b.rid then b else x) =
      store.map id := by
    apply List.map_congr_left
    intro x hx
    by_cases h : x.rid = b.rid
    · rw [if_pos h, id_eq, mem_rid_inj hnod hx hb h]
    · rw [if_neg h, id_eq]
  rw [this, List.map_id]

theorem upsertBatch_self {batch : List SRow} :
    ∀ {store : List SRow}, (ridsOf store).Nodup → (∀ b ∈ batch, b ∈ store) →
      upsertBatch store batch = store := by
  induction batch with
  | nil => intro store _ _; rfl
  | cons b rest ih =>
    intro store hnod hmem
    show upsertBatch (upsertOne store b) rest = store
    rw [upsertOne_self hnod (hmem b (List.mem_cons_self b rest))]
    exact ih hnod fun x hx => hmem x (List.mem_cons_of_mem b hx)

/-- One reconciliation pass is idempotent.  For a well-formed store and
remote data with distinct provider ids, running `reconcileStep` a second
time with the same remote data reproduces the state of the first run
exactly: every provider id resolves to the row written by the first run,
the upsert rewrites each row with identical content, and no fresh id is
assigned. -/
theorem reconcileStep_idem (s : SStore) (remote : List (String × String))
    (hrn : (remote.map Prod.fst).Nodup) (hwf : storeWF s) :
    reconcileStep (reconcileStep s remote) remote = reconcileStep s remote := by
  obtain ⟨hrid, hpid, hbound⟩ := hwf
  have hrel : ∀ pd ∈ remote,
      (∀ r0, s.rows.find? (fun x => decide (x.pid = pd.1)) = some r0 →
        ∃ w ∈ s.rows, w.rid = r0.rid ∧ w.pid = pd.1) ∧
      (s.rows.find? (fun x => decide (x.pid = pd.1)) = none →
        pd.1 ∉ pidsOf s.rows) := by
    intro pd _
    constructor
    · intro r0 hf
      exact ⟨r0, List.mem_of_find?_eq_some hf, rfl, by simpa using List.find?_some hf⟩
    · intro hf hmem
      obtain ⟨x, hx, hxe⟩ := List.mem_map.mp hmem
      have := List.find?_eq_none.mp hf x hx
      rw [hxe] at this
      simp at this
  have hpass := reconcilePass remote s.rows s.rows s.nextId hrn hrid hbound hrid hpid
    hbound hrel
  obtain ⟨hmem, hrid1, hpid1, _⟩ := hpass
  set b := buildRows s.rows remote s.nextId with hb
  have hs1rows : (reconcileStep s remote).rows = upsertBatch s.rows b.1 := rfl
  have hs1next : (reconcileStep s remote).nextId = b.2 := rfl
  have hfa := buildRows_forall₂ remote s.rows s.nextId
  have hfa2 : List.Forall₂ (fun (pd : String × String) (x : SRow) =>
      (upsertBatch s.rows b.1).find? (fun y => decide (y.pid = pd.1)) = some x ∧
        x.pid = pd.1 ∧ x.payload = pd.2) remote b.1 := by
    refine forall₂_imp_mem hfa ?_
    intro pd x hx hxb
    have hxs1 : x ∈ upsertBatch s.rows b.1 := hmem x hxb
    have hfind : (upsertBatch s.rows b.1).find? (fun y => decide (y.pid = x.pid)) =
        some x := find?_of_mem_pidNodup hpid1 hxs1
    rw [hx.1] at hfind
    exact ⟨hfind, hx.1, hx.2⟩
  have hrun2 : buildRows (upsertBatch s.rows b.1) remote b.2 = (b.1, b.2) :=
    buildRows_of_found (upsertBatch s.rows b.1) b.2 hfa2
  have hself : upsertBatch (upsertBatch s.rows b.1) b.1 = upsertBatch s.rows b.1 :=
    upsertBatch_self hrid1 hmem
  show reconcileStep ⟨upsertBatch s.rows b.1, b.2⟩ remote = ⟨upsertBatch s.rows b.1, b.2⟩
  unfold reconcileStep
  simp only [hrun2, hself]

/-- The three structural collections kept by the store. -/
structure SyncState where
  campaigns : SStore
  adGroups : SStore
  keywords : SStore
deriving DecidableEq

/-- One structural synchronization: campaigns, ad groups and keywords are
each reconciled against their remote listings by provider id. -/
def syncStructure (st : SyncState)
    (remoteCampaigns remoteAdGroups remoteKeywords : List (String × String)) :
    SyncState :=
  ⟨reconcileStep st.campaigns remoteCampaigns,
    reconcileStep st.adGroups remoteAdGroups,
    reconcileStep st.keywords remoteKeywords⟩

/-- C2: running the structural synchronization twice with unchanged remote
data yields exactly the state of the first run — in particular identical
internal ids and identical row counts for campaigns, ad groups and
keywords: every provider id seen before is looked up and upserted with its
existing internal id, so no row is duplicated or re-created. -/
theorem structural_idempotence (st : SyncState) (rc rg rk : List (String × String))
    (hwfc : storeWF st.campaigns) (hwfg : storeWF st.adGroups)
    (hwfk : storeWF st.keywords) (hrc : (rc.map Prod.fst).Nodup)
    (hrg : (rg.map Prod.fst).Nodup) (hrk : (rk.map Prod.fst).Nodup) :
    syncStructure (syncStructure st rc rg rk) rc rg rk = syncStructure st rc rg rk ∧
    ridsOf (syncStructure (syncStructure st rc rg rk) rc rg rk).campaigns.rows =
      ridsOf (syncStructure st rc rg rk).campaigns.rows ∧
    ridsOf (syncStructure (syncStructure st rc rg rk) rc rg rk).adGroups.rows =
      ridsOf (syncStructure st rc rg rk).adGroups.rows ∧
    ridsOf (syncStructure (syncStructure st rc rg rk) rc rg rk).keywords.rows =
      ridsOf (syncStructure st rc rg rk).keywords.rows ∧
    (syncStructure (syncStructure st rc rg rk) rc rg rk).campaigns.rows.length =
      (syncStructure st rc rg rk).campaigns.rows.length ∧
    (syncStructure (syncStructure st rc rg rk) rc rg rk).adGroups.rows.length =
      (syncStructure st rc rg rk).adGroups.rows.length ∧
    (syncStructure (syncStructure st rc rg rk) rc rg rk).keywords.rows.length =
      (syncStructure st rc rg rk).keywords.rows.length := by
  have h1 : syncStructure (syncStructure st rc rg rk) rc rg rk =
      syncStructure st rc rg rk := by
    show (⟨reconcileStep (reconcileStep st.campaigns rc) rc,
      reconcileStep (reconcileStep st.adGroups rg) rg,
      reconcileStep (reconcileStep st.keywords rk) rk⟩ : SyncState) =
      ⟨reconcileStep st.campaigns rc, reconcileStep st.adGroups rg,
        reconcileStep st.keywords rk⟩
    rw [reconcileStep_idem st.campaigns rc hrc hwfc,
      reconcileStep_idem st.adGroups rg hrg hwfg,
      reconcileStep_idem st.keywords rk hrk hwfk]
  exact ⟨h1, by rw [h1], by rw [h1], by rw [h1], by rw [h1], by rw [h1], by rw [h1]⟩

/-- A freshly linked account: all three collections empty. -/
def demoState : SyncState := ⟨⟨[], 0⟩, ⟨[], 0⟩, ⟨[], 0⟩⟩

/-- A remote hierarchy of one campaign, one ad group, two keywords. -/
def demoRC : List (String × String) := [("c1", "x")]

def demoRG : List (String × String) := [("g1", "y")]

def demoRK : List (String × String) := [("k1", "z"), ("k2", "w")]

theorem emptyStore_wf : storeWF ⟨[], 0⟩ :=
  ⟨List.nodup_nil, List.nodup_nil, fun r hr => absurd hr (List.not_mem_nil r)⟩

/-- Witness for C2: idempotence on the concrete one-campaign hierarchy. -/
theorem structural_idempotence_witness :
    syncStructure (syncStructure demoState demoRC demoRG demoRK) demoRC demoRG demoRK =
      syncStructure demoState demoRC demoRG demoRK :=
  (structural_idempotence demoState demoRC demoRG demoRK emptyStore_wf emptyStore_wf
    emptyStore_wf (by decide) (by decide) (by decide)).1

end Adsupper
